import Mathlib

/-!
Verification of the Smart Campus Assistant frontend core: the session and
tenant-isolation store, the upload-queue merge logic, the admin route
guards, and the error classification of the HTTP callers.  Every
definition below is a shallow embedding of a function of the repository
(file and lines are cited on each definition); the theorems at the end of
the file settle the specified properties against these definitions.
-/

set_option maxRecDepth 20000

namespace SCA

/-! ## Data model

The `UploadQueueItem` shape of `types/file` as pinned by the data model in
the specification and by every use site: an id, a display name, a size
label, a progress percentage, and a four-valued status. -/

inductive FileStatus where
  | pending
  | uploading
  | complete
  | error
  deriving DecidableEq, Repr

structure UploadQueueItem where
  id : String
  name : String
  sizeLabel : String
  progress : Nat
  status : FileStatus
  deriving DecidableEq, Repr

/-! ## Character-list substring search

A small executable model of JavaScript `String.prototype.includes`, used
by the error-message claims: `leadMatch h s` holds when `s` is an initial
segment of `h`, and `containsSub h s` when `s` occurs contiguously
anywhere in `h`. -/

def leadMatch : List Char → List Char → Bool
  | _, [] => true
  | [], _ :: _ => false
  | c :: h, d :: s => c == d && leadMatch h s

def containsSub : List Char → List Char → Bool
  | _, [] => true
  | [], _ :: _ => false
  | c :: h, d :: s => leadMatch (c :: h) (d :: s) || containsSub h (d :: s)

/-! ## Store actions (frontend/src/store/useAppStore.ts, lines 43-54)

`upsertFileItems` builds a JavaScript `Map` keyed by item id from the
current queue, sets every incoming item into it, and takes the values.
`mapSet` is the semantics of `Map.prototype.set` on an insertion-ordered
association list: an existing key is updated in place, a new key is
appended.  `mapOfPairs` is the `new Map(pairs)` constructor, which sets
each pair in order. -/

def mapSet : List (String × UploadQueueItem) → String → UploadQueueItem →
    List (String × UploadQueueItem)
  | [], k, v => [(k, v)]
  | p :: rest, k, v => if p.1 = k then (k, v) :: rest else p :: mapSet rest k v

def mapOfPairs (l : List (String × UploadQueueItem)) : List (String × UploadQueueItem) :=
  l.foldl (fun m p => mapSet m p.1 p.2) []

def upsertStep (m : List (String × UploadQueueItem)) (it : UploadQueueItem) :
    List (String × UploadQueueItem) :=
  mapSet m it.id it

def mapKeys (m : List (String × UploadQueueItem)) : List String :=
  m.map Prod.fst

def findPair (m : List (String × UploadQueueItem)) (k : String) :
    Option (String × UploadQueueItem) :=
  m.find? fun p => p.1 == k

def upsertFileItems (q items : List UploadQueueItem) : List UploadQueueItem :=
  (items.foldl upsertStep (mapOfPairs (q.map fun i => (i.id, i)))).map Prod.snd

def removeFileItem (q : List UploadQueueItem) (id : String) : List UploadQueueItem :=
  q.filter fun item => item.id != id

def clearCompletedFiles (q : List UploadQueueItem) : List UploadQueueItem :=
  q.filter fun item => item.status != FileStatus.complete

def setFilesQueue (_q items : List UploadQueueItem) : List UploadQueueItem :=
  items

/-- The sequence of ids of `items` that are not already in `ks`, in order of
first occurrence; these are the keys a JavaScript `Map` holding keys `ks`
appends while the items are set into it. -/
def newIds : List UploadQueueItem → List String → List String
  | [], _ => []
  | it :: rest, ks =>
    if it.id ∈ ks then newIds rest ks else it.id :: newIds rest (ks ++ [it.id])

/-- A map is consistent when each pair stores an item under the item's own
id, as every map built by the store does. -/
def ConsistentMap (m : List (String × UploadQueueItem)) : Prop :=
  ∀ p ∈ m, p.2.id = p.1

/-! ## Store rehydration (frontend/src/store/useAppStore.ts, lines 79-105)

`onRehydrateStorage` applies the persisted-snapshot defaults and then the
cross-tenant purge: it reads the current user as
`localStorage.getItem('student') || localStorage.getItem('admin')`
(JavaScript `||`, so an empty-string blob falls through), compares it with
the `sca-last-user` fingerprint using strict inequality, and on a
difference empties the queue and stores `currentUser || ''` as the new
fingerprint. -/

structure Profile where
  name : String
  role : String
  deriving DecidableEq, Repr

def defaultProfile : Profile :=
  { name := "Devon Bailey", role := "AI Program Coordinator" }

def defaultNotificationPrefs : List (String × Bool) :=
  [("summaryEmail", true), ("weeklyDigest", false), ("ingestionAlerts", true)]

structure RehydrateStorage where
  student : Option String
  admin : Option String
  lastUser : Option String
  deriving DecidableEq, Repr

structure PersistedSnapshot where
  profile : Option Profile
  notificationPrefs : Option (List (String × Bool))
  filesQueue : Option (List UploadQueueItem)
  deriving DecidableEq, Repr

structure HydratedState where
  profile : Profile
  notificationPrefs : List (String × Bool)
  filesQueue : List UploadQueueItem
  deriving DecidableEq, Repr

/-- JavaScript `a || b` on two nullable strings: `a` wins unless it is null
or the empty string. -/
def jsOrString : Option String → Option String → Option String
  | some s, b => if s = "" then b else some s
  | none, b => b

def currentUserOf (st : RehydrateStorage) : Option String :=
  jsOrString st.student st.admin

def onRehydrateStorage (st : RehydrateStorage) (snap : PersistedSnapshot) :
    RehydrateStorage × HydratedState :=
  let profile := snap.profile.getD defaultProfile
  let prefs := snap.notificationPrefs.getD defaultNotificationPrefs
  let q0 := snap.filesQueue.getD []
  let currentUser := currentUserOf st
  if currentUser = st.lastUser then
    (st, { profile := profile, notificationPrefs := prefs, filesQueue := q0 })
  else
    ({ st with lastUser := some (currentUser.getD "") },
     { profile := profile, notificationPrefs := prefs, filesQueue := [] })

/-! ## Upload page merge (frontend/src/pages/UploadPage.tsx, lines 55-58)

The displayed queue is the local queue followed by the server documents
whose name no local entry carries. -/

def combinedQueue (filesQueue serverDocs : List UploadQueueItem) : List UploadQueueItem :=
  filesQueue ++ serverDocs.filter fun sd => !(filesQueue.any fun fq => fq.name == sd.name)

/-! ## Session storage and the login and logout handlers

The three client-side keys `token`, `student` and `admin`.  The login
handlers are modelled at the point their request has succeeded, taking the
returned access token and the already serialized JSON profile blob as
strings. -/

structure SessionStorage where
  token : Option String
  student : Option String
  admin : Option String
  deriving DecidableEq, Repr

/-- AdminLogin.handleSubmit success path (frontend/src/pages/AdminLogin.tsx,
lines 36-49): stores the token, stores the admin blob, removes the student
key, then navigates to /admin. -/
def adminLoginHandleSubmit (_st : SessionStorage) (accessToken adminBlob : String) :
    SessionStorage :=
  { token := some accessToken, admin := some adminBlob, student := none }

/-- Login.handleSubmit success path (the student login page, lines 44-56):
stores the token and the student blob, then redirects to /dashboard.  It
does not touch the admin key. -/
def loginHandleSubmit (st : SessionStorage) (accessToken studentBlob : String) :
    SessionStorage :=
  { st with token := some accessToken, student := some studentBlob }

/-- handleLogout of the admin pages (frontend/src/pages/AdminDashboard.tsx,
lines 171-176, and AdminPerformance.tsx, lines 55-60): removes all three
keys and navigates to /admin-login. -/
def handleLogout (_st : SessionStorage) : SessionStorage :=
  { token := none, admin := none, student := none }

/-- The mutual-exclusion invariant of the specification: at most one of the
student and admin keys is set. -/
def mutuallyExclusive (st : SessionStorage) : Prop :=
  st.student = none ∨ st.admin = none

def emptySession : SessionStorage :=
  { token := none, student := none, admin := none }

def sessionAfterAdminLogin : SessionStorage :=
  adminLoginHandleSubmit emptySession "tokA" "adminBlob"

def sessionAfterStudentLogin : SessionStorage :=
  loginHandleSubmit sessionAfterAdminLogin "tokS" "studentBlob"

/-! ## Admin route guards (frontend/src/pages/AdminDashboard.tsx lines 37-54
and AdminPerformance.tsx lines 18-36)

Both pages run the same check: read the `admin` key; a missing (or, via
the JavaScript falsiness of the empty string, empty) blob, a blob that
JSON.parse rejects, and a parsed blob whose `is_admin` is false all
navigate to /dashboard with `replace: true`; only a parsed blob with
`is_admin` true stays.  The blob is abstracted into the three outcomes of
`getItem` plus parse. -/

inductive AdminBlobState where
  | absent
  | unparseable
  | parsed (is_admin : Bool)
  deriving DecidableEq, Repr

inductive GuardAction where
  | stay
  | redirect (route : String) (replaceEntry : Bool)
  deriving DecidableEq, Repr

def adminDashboardGuard : AdminBlobState → GuardAction
  | .absent => .redirect "/dashboard" true
  | .unparseable => .redirect "/dashboard" true
  | .parsed a => if a then .stay else .redirect "/dashboard" true

def adminPerformanceGuard : AdminBlobState → GuardAction
  | .absent => .redirect "/dashboard" true
  | .unparseable => .redirect "/dashboard" true
  | .parsed a => if a then .stay else .redirect "/dashboard" true

/-! ## fetchUsers failure handling (frontend/src/pages/AdminDashboard.tsx,
lines 56-94)

On a non-2xx response the code reads the body text but only logs it; the
thrown error message is built from the status code and the status text
alone.  The catch block then schedules the session-clearing redirect only
when that message contains one of two backend phrases. -/

def fetchUsersFailureMessage (status : Nat) (statusText : String) : String :=
  "Failed to load users: " ++ toString status ++ " " ++ statusText

def fetchUsersRedirectTrigger (errorMessage : String) : Bool :=
  containsSub errorMessage.data ("Could not validate credentials").data ||
    containsSub errorMessage.data ("Unauthenticated").data

/-! ## handleAddUser failure handling (frontend/src/pages/AdminDashboard.tsx,
lines 100-146)

On a non-2xx response the parsed body is inspected: a 422 whose detail is
an array of loc/msg records is aggregated into one joined message; any
other detail falls through to `new Error(data.detail || 'Failed to add
user')`, where JavaScript stringifies an array of objects as a
comma-joined list of `[object Object]` and treats the empty string as
falsy. -/

structure FieldValidationErr where
  loc : List String
  msg : String
  deriving DecidableEq, Repr

def formatValidationErr (e : FieldValidationErr) : String :=
  String.intercalate "." e.loc ++ ": " ++ e.msg

inductive ErrDetail where
  | arr (errs : List FieldValidationErr)
  | str (s : String)
  | absent
  deriving DecidableEq, Repr

def jsArrayToString (errs : List FieldValidationErr) : String :=
  String.intercalate "," (errs.map fun _ => "[object Object]")

def handleAddUserErrorMessage (status : Nat) (detail : ErrDetail) : String :=
  match detail with
  | .arr errs =>
    if status = 422 then String.intercalate ", " (errs.map formatValidationErr)
    else jsArrayToString errs
  | .str s => if s = "" then "Failed to add user" else s
  | .absent => "Failed to add user"

/-! ## uploadFile error classification (services/api files client, the
uploadFile function)

The fetch is armed with an AbortController whose timer fires after
300000 ms.  A rejected fetch is classified by the catch block: an
AbortError yields the timeout message, a TypeError yields the
connectivity message naming the configured backend base URL, and any
other rejection yields the generic unreachable message. -/

def uploadTimeoutMs : Nat := 300000

inductive UploadFetchError where
  | abortError
  | typeError
  | otherError
  deriving DecidableEq, Repr

def uploadTimedOutMessage : String :=
  "Upload timed out. The file may be too large or the connection is too slow. Please try again or use a smaller file."

def backendUnreachableGuidance : String :=
  ". Please verify:\n1. Backend is running (check http://127.0.0.1:8000/health)\n2. CORS is properly configured\n3. No firewall blocking the connection\n4. Backend was restarted with: python backend/start_server.py"

def backendUnreachableMessage (apiBaseUrl : String) : String :=
  "Unable to reach the assistant backend at " ++ apiBaseUrl ++ backendUnreachableGuidance

def genericUnreachableMessage : String :=
  "Unable to reach the assistant backend. Confirm it is running and reachable."

def uploadFileCatchMessage (apiBaseUrl : String) : UploadFetchError → String
  | .abortError => uploadTimedOutMessage
  | .typeError => backendUnreachableMessage apiBaseUrl
  | .otherError => genericUnreachableMessage

/-! ## Concrete fixtures used by the examples and witnesses -/

def xUploading : UploadQueueItem :=
  { id := "local-x", name := "x", sizeLabel := "1 MB", progress := 40,
    status := FileStatus.uploading }

def xComplete : UploadQueueItem :=
  { id := "srv-x", name := "x", sizeLabel := "Synced", progress := 100,
    status := FileStatus.complete }

def yComplete : UploadQueueItem :=
  { id := "srv-y", name := "y", sizeLabel := "Synced", progress := 100,
    status := FileStatus.complete }

def errItem : UploadQueueItem :=
  { id := "err-1", name := "failed.pdf", sizeLabel := "2 MB", progress := 10,
    status := FileStatus.error }

def doneItem : UploadQueueItem :=
  { id := "done-1", name := "done.pdf", sizeLabel := "1 MB", progress := 100,
    status := FileStatus.complete }

def freshItem : UploadQueueItem :=
  { id := "new-1", name := "new.pdf", sizeLabel := "3 MB", progress := 0,
    status := FileStatus.pending }

def errReplacement : UploadQueueItem :=
  { id := "err-1", name := "failed.pdf", sizeLabel := "2 MB", progress := 55,
    status := FileStatus.uploading }

def switchedStorage : RehydrateStorage :=
  { student := some "studentBlobB", admin := none, lastUser := some "studentBlobA" }

def snapshotWithQueue : PersistedSnapshot :=
  { profile := none, notificationPrefs := none, filesQueue := some [errItem, doneItem] }

/-! ## Lemmas about the insertion-ordered map model -/

theorem mapSet_keys (m : List (String × UploadQueueItem)) (k : String) (v : UploadQueueItem) :
    mapKeys (mapSet m k v) =
      if k ∈ mapKeys m then mapKeys m else mapKeys m ++ [k] := by
  induction m with
  | nil => simp [mapSet, mapKeys]
  | cons p rest ih =>
    have hkeys : mapKeys (p :: rest) = p.1 :: mapKeys rest := rfl
    by_cases hpk : p.1 = k
    · have hmem : k ∈ mapKeys (p :: rest) := by
        rw [hkeys, ← hpk]
        exact List.mem_cons_self _ _
      rw [if_pos hmem]
      simp [mapSet, hpk, mapKeys]
    · have hne : k ≠ p.1 := fun h => hpk h.symm
      have hset : mapSet (p :: rest) k v = p :: mapSet rest k v := by simp [mapSet, hpk]
      rw [hset]
      have hcons : mapKeys (p :: mapSet rest k v) = p.1 :: mapKeys (mapSet rest k v) := rfl
      rw [hcons, ih, hkeys]
      by_cases hk : k ∈ mapKeys rest
      · rw [if_pos hk, if_pos (List.mem_cons_of_mem _ hk)]
      · rw [if_neg hk, if_neg (by
          intro hmem
          rcases List.mem_cons.mp hmem with h | h
          · exact hne h
          · exact hk h)]
        rfl

theorem mapSet_of_not_mem {m : List (String × UploadQueueItem)} {k : String}
    (v : UploadQueueItem) (h : k ∉ mapKeys m) :
    mapSet m k v = m ++ [(k, v)] := by
  induction m with
  | nil => simp [mapSet]
  | cons p rest ih =>
    have hpk : ¬ p.1 = k := by
      intro he
      exact h (by simp [mapKeys, he])
    have hk : k ∉ mapKeys rest := by
      intro hmem
      exact h (by simp [mapKeys] at hmem ⊢; exact Or.inr hmem)
    simp [mapSet, hpk, ih hk]

theorem findPair_mapSet_self (m : List (String × UploadQueueItem)) (k : String)
    (v : UploadQueueItem) : findPair (mapSet m k v) k = some (k, v) := by
  induction m with
  | nil => simp [mapSet, findPair]
  | cons p rest ih =>
    by_cases hpk : p.1 = k
    · have hset : mapSet (p :: rest) k v = (k, v) :: rest := by simp [mapSet, hpk]
      unfold findPair
      rw [hset, List.find?_cons_of_pos _ (by simp)]
    · have hset : mapSet (p :: rest) k v = p :: mapSet rest k v := by simp [mapSet, hpk]
      unfold findPair
      rw [hset, List.find?_cons_of_neg _ (by simp [hpk])]
      exact ih

theorem findPair_mapSet_ne (m : List (String × UploadQueueItem)) {k k₂ : String}
    (v : UploadQueueItem) (h : k₂ ≠ k) :
    findPair (mapSet m k v) k₂ = findPair m k₂ := by
  have hkk : ¬ (k = k₂) := fun he => h he.symm
  induction m with
  | nil =>
    have hbeq : (k == k₂) = false := by
      simp [hkk]
    unfold findPair
    simp [mapSet, List.find?, hbeq]
  | cons p rest ih =>
    by_cases hpk : p.1 = k
    · have hp2 : ¬ (p.1 = k₂) := by rw [hpk]; exact hkk
      have hset : mapSet (p :: rest) k v = (k, v) :: rest := by simp [mapSet, hpk]
      unfold findPair
      rw [hset, List.find?_cons_of_neg _ (by simp [hkk]),
        List.find?_cons_of_neg _ (by simp [hp2])]
    · have hset : mapSet (p :: rest) k v = p :: mapSet rest k v := by simp [mapSet, hpk]
      unfold findPair
      rw [hset]
      by_cases hp2 : p.1 = k₂
      · rw [List.find?_cons_of_pos _ (by simp [hp2]), List.find?_cons_of_pos _ (by simp [hp2])]
      · rw [List.find?_cons_of_neg _ (by simp [hp2]), List.find?_cons_of_neg _ (by simp [hp2])]
        exact ih

theorem find?_append_cases {α : Type} (l₁ l₂ : List α) (p : α → Bool) :
    (l₁ ++ l₂).find? p =
      match l₁.find? p with
      | some x => some x
      | none => l₂.find? p := by
  induction l₁ with
  | nil => simp
  | cons a rest ih =>
    by_cases hpa : p a = true
    · simp [List.find?, hpa]
    · have hpa' : p a = false := by
        cases h : p a
        · rfl
        · exact absurd h hpa
      simp [List.find?, hpa', ih]

theorem foldl_upsert_findPair (items : List UploadQueueItem) :
    ∀ (m : List (String × UploadQueueItem)) (k : String),
      findPair (items.foldl upsertStep m) k =
        match items.reverse.find? (fun it => it.id == k) with
        | some v => some (k, v)
        | none => findPair m k := by
  induction items with
  | nil => intro m k; simp
  | cons it rest ih =>
    intro m k
    have step : (it :: rest).foldl upsertStep m = rest.foldl upsertStep (mapSet m it.id it) := by
      simp [upsertStep]
    rw [step, ih (mapSet m it.id it) k]
    have hrev : (it :: rest).reverse = rest.reverse ++ [it] := by simp
    rw [hrev, find?_append_cases]
    cases hfound : rest.reverse.find? (fun x => x.id == k) with
    | some v => simp
    | none =>
      by_cases hidk : it.id = k
      · subst hidk
        simp [findPair_mapSet_self]
      · have : (it.id == k) = false := by
          simp [hidk]
        simp [List.find?, this, findPair_mapSet_ne m it (fun he => hidk he.symm)]

theorem foldl_upsert_keys (items : List UploadQueueItem) :
    ∀ m : List (String × UploadQueueItem),
      mapKeys (items.foldl upsertStep m) = mapKeys m ++ newIds items (mapKeys m) := by
  induction items with
  | nil => intro m; simp [newIds]
  | cons it rest ih =>
    intro m
    have step : (it :: rest).foldl upsertStep m = rest.foldl upsertStep (mapSet m it.id it) := by
      simp [upsertStep]
    rw [step, ih (mapSet m it.id it), mapSet_keys]
    by_cases hk : it.id ∈ mapKeys m
    · simp [hk, newIds]
    · simp [hk, newIds]

theorem newIds_not_mem (items : List UploadQueueItem) :
    ∀ (ks : List String) (k : String), k ∈ newIds items ks → k ∉ ks := by
  induction items with
  | nil => intro ks k h; simp [newIds] at h
  | cons it rest ih =>
    intro ks k h
    by_cases hk : it.id ∈ ks
    · simp [newIds, hk] at h
      exact ih ks k h
    · simp [newIds, hk] at h
      rcases h with h | h
      · subst h; exact hk
      · have := ih (ks ++ [it.id]) k h
        intro hks
        exact this (by simp [hks])

theorem newIds_nodup (items : List UploadQueueItem) :
    ∀ ks : List String, (newIds items ks).Nodup := by
  induction items with
  | nil => intro ks; simp [newIds]
  | cons it rest ih =>
    intro ks
    by_cases hk : it.id ∈ ks
    · simp [newIds, hk]
      exact ih ks
    · have hred : newIds (it :: rest) ks = it.id :: newIds rest (ks ++ [it.id]) := by
        simp [newIds, hk]
      rw [hred]
      refine List.nodup_cons.mpr ⟨fun hmem => ?_, ih (ks ++ [it.id])⟩
      have := newIds_not_mem rest (ks ++ [it.id]) it.id hmem
      exact this (by simp)

theorem foldl_pairs_of_nodup :
    ∀ (l m : List (String × UploadQueueItem)),
      (mapKeys m ++ l.map Prod.fst).Nodup →
      l.foldl (fun m p => mapSet m p.1 p.2) m = m ++ l := by
  intro l
  induction l with
  | nil => intro m _; simp
  | cons p rest ih =>
    intro m h
    have hd : (mapKeys m).Disjoint (p.1 :: rest.map Prod.fst) := by
      have := List.nodup_append.mp (by simpa using h)
      exact this.2.2
    have hp1 : p.1 ∉ mapKeys m := by
      intro hmem
      exact hd hmem (by simp)
    have hset : mapSet m p.1 p.2 = m ++ [(p.1, p.2)] := mapSet_of_not_mem p.2 hp1
    have hkeys : mapKeys (m ++ [(p.1, p.2)]) = mapKeys m ++ [p.1] := by
      simp [mapKeys]
    have hperm : (mapKeys (m ++ [(p.1, p.2)]) ++ rest.map Prod.fst)
        = mapKeys m ++ (p.1 :: rest.map Prod.fst) := by
      rw [hkeys]
      simp
    have hnodup : (mapKeys (m ++ [(p.1, p.2)]) ++ rest.map Prod.fst).Nodup := by
      rw [hperm]
      simpa using h
    calc (p :: rest).foldl (fun m p => mapSet m p.1 p.2) m
        = rest.foldl (fun m p => mapSet m p.1 p.2) (mapSet m p.1 p.2) := by simp
      _ = rest.foldl (fun m p => mapSet m p.1 p.2) (m ++ [(p.1, p.2)]) := by rw [hset]
      _ = (m ++ [(p.1, p.2)]) ++ rest := ih (m ++ [(p.1, p.2)]) hnodup
      _ = m ++ (p :: rest) := by simp

theorem mapOfPairs_of_nodup {l : List (String × UploadQueueItem)}
    (h : (l.map Prod.fst).Nodup) : mapOfPairs l = l := by
  have := foldl_pairs_of_nodup l [] (by simpa [mapKeys] using h)
  simpa [mapOfPairs] using this

theorem consistent_mapSet :
    ∀ (m : List (String × UploadQueueItem)) (k : String) (v : UploadQueueItem),
      ConsistentMap m → v.id = k → ConsistentMap (mapSet m k v) := by
  intro m
  induction m with
  | nil =>
    intro k v _ hv p hp
    simp [mapSet] at hp
    subst hp
    exact hv
  | cons hd rest ih =>
    intro k v h hv
    have hhd : hd.2.id = hd.1 := h hd (List.mem_cons_self _ _)
    have hrest : ConsistentMap rest := fun r hr => h r (List.mem_cons_of_mem _ hr)
    by_cases hqk : hd.1 = k
    · have hset : mapSet (hd :: rest) k v = (k, v) :: rest := by simp [mapSet, hqk]
      rw [hset]
      intro p hp
      rcases List.mem_cons.mp hp with hp | hp
      · subst hp; exact hv
      · exact hrest p hp
    · have hset : mapSet (hd :: rest) k v = hd :: mapSet rest k v := by simp [mapSet, hqk]
      rw [hset]
      intro p hp
      rcases List.mem_cons.mp hp with hp | hp
      · subst hp; exact hhd
      · exact ih k v hrest hv p hp

theorem consistent_foldl (items : List UploadQueueItem) :
    ∀ m : List (String × UploadQueueItem), ConsistentMap m →
      ConsistentMap (items.foldl upsertStep m) := by
  induction items with
  | nil => intro m h; simpa using h
  | cons it rest ih =>
    intro m h
    have step : (it :: rest).foldl upsertStep m = rest.foldl upsertStep (mapSet m it.id it) := by
      simp [upsertStep]
    rw [step]
    exact ih _ (consistent_mapSet m it.id it h rfl)

theorem values_find_eq :
    ∀ m : List (String × UploadQueueItem), ConsistentMap m → ∀ k : String,
      (m.map Prod.snd).find? (fun i => i.id == k) = (findPair m k).map Prod.snd := by
  intro m
  induction m with
  | nil => intro _ k; simp [findPair]
  | cons hd rest ih =>
    intro h k
    have hhd : hd.2.id = hd.1 := h hd (List.mem_cons_self _ _)
    have hrest : ConsistentMap rest := fun r hr => h r (List.mem_cons_of_mem _ hr)
    have hmap : (hd :: rest).map Prod.snd = hd.2 :: rest.map Prod.snd := rfl
    rw [hmap]
    by_cases hb : hd.1 = k
    · rw [List.find?_cons_of_pos _ (by simp [hhd, hb])]
      unfold findPair
      rw [List.find?_cons_of_pos _ (by simp [hb])]
      rfl
    · rw [List.find?_cons_of_neg _ (by simp [hhd, hb])]
      unfold findPair
      rw [List.find?_cons_of_neg _ (by simp [hb])]
      exact ih hrest k

theorem values_map_id :
    ∀ m : List (String × UploadQueueItem), ConsistentMap m →
      (m.map Prod.snd).map (fun i => i.id) = mapKeys m := by
  intro m
  induction m with
  | nil => intro _; simp [mapKeys]
  | cons hd rest ih =>
    intro h
    have hhd : hd.2.id = hd.1 := h hd (List.mem_cons_self _ _)
    have hrest : ConsistentMap rest := fun r hr => h r (List.mem_cons_of_mem _ hr)
    have hkeys : mapKeys (hd :: rest) = hd.1 :: mapKeys rest := rfl
    rw [hkeys]
    simp only [List.map_cons]
    rw [hhd, ih hrest]

theorem mem_mapKeys_mapSet (m : List (String × UploadQueueItem)) (k k2 : String)
    (v : UploadQueueItem) (h : k ∈ mapKeys m) : k ∈ mapKeys (mapSet m k2 v) := by
  rw [mapSet_keys]
  by_cases h2 : k2 ∈ mapKeys m
  · rw [if_pos h2]; exact h
  · rw [if_neg h2]; exact List.mem_append.mpr (Or.inl h)

theorem mem_mapKeys_mapSet_self (m : List (String × UploadQueueItem)) (k : String)
    (v : UploadQueueItem) : k ∈ mapKeys (mapSet m k v) := by
  rw [mapSet_keys]
  by_cases h : k ∈ mapKeys m
  · rw [if_pos h]; exact h
  · rw [if_neg h]; exact List.mem_append.mpr (Or.inr (List.mem_singleton.mpr rfl))

theorem mem_keys_foldl_pairs :
    ∀ (l : List (String × UploadQueueItem)) (m : List (String × UploadQueueItem)) (k : String),
      (k ∈ mapKeys m ∨ k ∈ l.map Prod.fst) →
      k ∈ mapKeys (l.foldl (fun m p => mapSet m p.1 p.2) m) := by
  intro l
  induction l with
  | nil =>
    intro m k h
    rcases h with h | h
    · simpa using h
    · simp at h
  | cons p rest ih =>
    intro m k h
    have hstep : (p :: rest).foldl (fun m p => mapSet m p.1 p.2) m =
        rest.foldl (fun m p => mapSet m p.1 p.2) (mapSet m p.1 p.2) := by
      simp
    rw [hstep]
    rcases h with h | h
    · exact ih _ k (Or.inl (mem_mapKeys_mapSet m k p.1 p.2 h))
    · have hcons : (p :: rest).map Prod.fst = p.1 :: rest.map Prod.fst := rfl
      rw [hcons] at h
      rcases List.mem_cons.mp h with h | h
      · rw [h]
        exact ih _ p.1 (Or.inl (mem_mapKeys_mapSet_self m p.1 p.2))
      · exact ih _ k (Or.inr h)

theorem mem_keys_mapOfPairs (l : List (String × UploadQueueItem)) (k : String)
    (h : k ∈ l.map Prod.fst) : k ∈ mapKeys (mapOfPairs l) :=
  mem_keys_foldl_pairs l [] k (Or.inr h)

theorem map_snd_pairs :
    ∀ l : List UploadQueueItem, (l.map fun i => (i.id, i)).map Prod.snd = l := by
  intro l
  induction l with
  | nil => rfl
  | cons a t ih => simp [ih]

theorem consistent_foldl_pairs :
    ∀ (l m : List (String × UploadQueueItem)), ConsistentMap m →
      (∀ p ∈ l, p.2.id = p.1) →
      ConsistentMap (l.foldl (fun m p => mapSet m p.1 p.2) m) := by
  intro l
  induction l with
  | nil => intro m hm _; simpa using hm
  | cons p rest ih =>
    intro m hm hl
    have hstep : (p :: rest).foldl (fun m p => mapSet m p.1 p.2) m =
        rest.foldl (fun m p => mapSet m p.1 p.2) (mapSet m p.1 p.2) := by
      simp
    rw [hstep]
    exact ih _ (consistent_mapSet m p.1 p.2 hm (hl p (List.mem_cons_self _ _)))
      (fun r hr => hl r (List.mem_cons_of_mem _ hr))

theorem consistent_mapOfPairs (l : List (String × UploadQueueItem))
    (h : ∀ p ∈ l, p.2.id = p.1) : ConsistentMap (mapOfPairs l) :=
  consistent_foldl_pairs l [] (fun p hp => absurd hp (List.not_mem_nil p)) h

/-! ## Lemmas about substring search -/

theorem leadMatch_length : ∀ h s : List Char, leadMatch h s = true → s.length ≤ h.length := by
  intro h
  induction h with
  | nil =>
    intro s hm
    cases s with
    | nil => simp
    | cons d t => simp [leadMatch] at hm
  | cons c rest ih =>
    intro s hm
    cases s with
    | nil => simp
    | cons d t =>
      simp [leadMatch] at hm
      have := ih t hm.2
      simp only [List.length_cons]
      omega

theorem containsSub_length : ∀ h s : List Char, containsSub h s = true → s.length ≤ h.length := by
  intro h
  induction h with
  | nil =>
    intro s hm
    cases s with
    | nil => simp
    | cons d t => simp [containsSub] at hm
  | cons c rest ih =>
    intro s hm
    cases s with
    | nil => simp
    | cons d t =>
      simp [containsSub] at hm
      rcases hm with hm | hm
      · exact leadMatch_length _ _ (by simpa [leadMatch] using hm)
      · have := ih _ hm
        simp only [List.length_cons] at this ⊢
        omega

/-! ## Claim theorems -/

/-- C1: On every store rehydration, when the current user blob read from
the student or admin key differs from the sca-last-user fingerprint, the
hydrated upload queue is empty regardless of the snapshot contents and the
fingerprint is updated to the current user; when the two agree, the
storage and the snapshot queue are passed through unchanged. -/
theorem rehydrate_purges_queue_on_identity_switch
    (st : RehydrateStorage) (snap : PersistedSnapshot) :
    (currentUserOf st ≠ st.lastUser →
      (onRehydrateStorage st snap).2.filesQueue = [] ∧
      (onRehydrateStorage st snap).1.lastUser = some ((currentUserOf st).getD "") ∧
      (∀ u : String, currentUserOf st = some u →
        (onRehydrateStorage st snap).1.lastUser = some u)) ∧
    (currentUserOf st = st.lastUser →
      (onRehydrateStorage st snap).1 = st ∧
      (onRehydrateStorage st snap).2.filesQueue = snap.filesQueue.getD []) := by
  constructor
  · intro hne
    refine ⟨?_, ?_, ?_⟩
    · simp [onRehydrateStorage, hne]
    · simp [onRehydrateStorage, hne]
    · intro u hu
      rw [hu] at hne
      simp [onRehydrateStorage, hu, hne]
  · intro heq
    constructor
    · simp [onRehydrateStorage, heq]
    · simp [onRehydrateStorage, heq]

/-- C1 witness: a storage whose student blob changed since the recorded
fingerprint purges the persisted queue and records the new blob. -/
theorem rehydrate_purge_witness :
    (onRehydrateStorage switchedStorage snapshotWithQueue).2.filesQueue = [] ∧
    (onRehydrateStorage switchedStorage snapshotWithQueue).1.lastUser = some "studentBlobB" := by
  have h := rehydrate_purges_queue_on_identity_switch switchedStorage snapshotWithQueue
  have hne : currentUserOf switchedStorage ≠ switchedStorage.lastUser := by decide
  exact ⟨(h.1 hne).1, (h.1 hne).2.2 "studentBlobB" (by decide)⟩

/-- C2: The displayed queue is the local queue followed by exactly the
server entries whose name no local entry carries, and in particular the
specified example merges to local-first with the colliding server entry
suppressed. -/
theorem combinedQueue_local_wins_by_name (L S : List UploadQueueItem) :
    combinedQueue L S =
      L ++ S.filter (fun sd => decide (∀ fq ∈ L, fq.name ≠ sd.name)) ∧
    (∀ x : UploadQueueItem, x ∈ combinedQueue L S ↔
      x ∈ L ∨ (x ∈ S ∧ x.name ∉ L.map (fun fq => fq.name))) ∧
    combinedQueue [xUploading] [xComplete, yComplete] = [xUploading, yComplete] := by
  refine ⟨?_, ?_, by decide⟩
  · unfold combinedQueue
    congr 1
    apply List.filter_congr
    intro sd _
    cases hany : L.any fun fq => fq.name == sd.name with
    | false =>
      have hall : ∀ fq ∈ L, fq.name ≠ sd.name := by
        intro fq hfq he
        have : L.any (fun fq => fq.name == sd.name) = true :=
          List.any_eq_true.mpr ⟨fq, hfq, by simp [he]⟩
        rw [hany] at this
        exact Bool.noConfusion this
      simp only [Bool.not_false]
      exact (decide_eq_true hall).symm
    | true =>
      have hnall : ¬ ∀ fq ∈ L, fq.name ≠ sd.name := by
        rcases List.any_eq_true.mp hany with ⟨fq, hfq, hb⟩
        intro hall
        exact hall fq hfq (by simpa using hb)
      simp only [Bool.not_true]
      exact (decide_eq_false hnall).symm
  · intro x
    unfold combinedQueue
    constructor
    · intro hx
      rcases List.mem_append.mp hx with hx | hx
      · exact Or.inl hx
      · have hmem := List.mem_filter.mp hx
        refine Or.inr ⟨hmem.1, ?_⟩
        intro hname
        rcases List.mem_map.mp hname with ⟨fq, hfq, he⟩
        have : L.any (fun fq => fq.name == x.name) = true :=
          List.any_eq_true.mpr ⟨fq, hfq, by simp [he]⟩
        have hfalse := hmem.2
        rw [this] at hfalse
        exact Bool.noConfusion hfalse
    · intro hx
      rcases hx with hx | ⟨hxS, hname⟩
      · exact List.mem_append.mpr (Or.inl hx)
      · refine List.mem_append.mpr (Or.inr (List.mem_filter.mpr ⟨hxS, ?_⟩))
        cases hany : L.any fun fq => fq.name == x.name with
        | false => rfl
        | true =>
          rcases List.any_eq_true.mp hany with ⟨fq, hfq, hb⟩
          exact absurd (List.mem_map.mpr ⟨fq, hfq, by simpa using hb⟩) hname

/-- C2 witness: the merge of the specified example lists. -/
theorem combinedQueue_example_witness :
    combinedQueue [xUploading] [xComplete, yComplete] = [xUploading, yComplete] :=
  (combinedQueue_local_wins_by_name [xUploading] [xComplete, yComplete]).2.2

/-- C3 counterexample: a student login performed while an admin blob is
stored leaves both identity keys set, so the claimed mutual exclusion
after every login fails on this input. -/
theorem student_login_keeps_admin_counterexample :
    sessionAfterStudentLogin.student = some "studentBlob" ∧
    sessionAfterStudentLogin.admin = some "adminBlob" ∧
    ¬ mutuallyExclusive sessionAfterStudentLogin := by
  refine ⟨rfl, rfl, ?_⟩
  intro h
  unfold mutuallyExclusive at h
  rcases h with h | h
  · rw [show sessionAfterStudentLogin.student = some "studentBlob" from rfl] at h
    exact Option.noConfusion h
  · rw [show sessionAfterStudentLogin.admin = some "adminBlob" from rfl] at h
    exact Option.noConfusion h

/-- C3 amended: an admin login clears the student key and establishes
mutual exclusion, and the admin logout clears both keys; a student login
stores the student blob but leaves the admin key exactly as it was, so
mutual exclusion is not restored by the student login path. -/
theorem identity_keys_after_login_logout (st : SessionStorage) (tok blob : String) :
    (adminLoginHandleSubmit st tok blob).student = none ∧
    mutuallyExclusive (adminLoginHandleSubmit st tok blob) ∧
    mutuallyExclusive (handleLogout st) ∧
    (loginHandleSubmit st tok blob).admin = st.admin ∧
    (loginHandleSubmit st tok blob).student = some blob :=
  ⟨rfl, Or.inl rfl, Or.inl rfl, rfl, rfl⟩

/-- C3 amended witness: evaluation at a concrete session. -/
theorem identity_keys_witness :
    mutuallyExclusive (adminLoginHandleSubmit emptySession "t" "a") ∧
    (loginHandleSubmit emptySession "t" "s").admin = none :=
  ⟨(identity_keys_after_login_logout emptySession "t" "a").2.1,
    ((identity_keys_after_login_logout emptySession "t" "s").2.2.2.1).trans rfl⟩

/-- C4 counterexample: with no stored identity both admin guards redirect
to /dashboard, which is neither the student login route /login nor the
admin login route /admin-login, refuting the claimed redirect to the login
route. -/
theorem null_identity_admin_guard_counterexample :
    adminDashboardGuard AdminBlobState.absent = GuardAction.redirect "/dashboard" true ∧
    adminPerformanceGuard AdminBlobState.absent = GuardAction.redirect "/dashboard" true ∧
    ("/dashboard" : String) ≠ "/login" ∧
    ("/dashboard" : String) ≠ "/admin-login" := by
  refine ⟨rfl, rfl, by decide, by decide⟩

/-- C4 amended: with a null identity the admin-only route guards redirect
to /dashboard, the same fallback used for a student identity, rather than
to a login route. -/
theorem admin_guard_null_identity_redirects_dashboard :
    adminDashboardGuard AdminBlobState.absent = GuardAction.redirect "/dashboard" true ∧
    adminPerformanceGuard AdminBlobState.absent = GuardAction.redirect "/dashboard" true :=
  ⟨rfl, rfl⟩

/-- C5: the message thrown for a 401 users request is built from the
status code and status text alone, and the substring test guarding the
session-clearing delayed redirect rejects it, so the code never clears the
session or redirects on an ordinary 401 response, contradicting the
specified forced logout. -/
theorem fetchUsers_401_no_redirect :
    fetchUsersFailureMessage 401 "Unauthorized" = "Failed to load users: 401 Unauthorized" ∧
    fetchUsersRedirectTrigger (fetchUsersFailureMessage 401 "Unauthorized") = false ∧
    fetchUsersRedirectTrigger (fetchUsersFailureMessage 401 "") = false := by
  refine ⟨by decide, by decide, by decide⟩

/-- C6: a 422 add-user response with an array detail surfaces the
comma-joined per-field messages, dot-joining each location path, as
evaluated on the specified example and on a two-error detail. -/
theorem addUser_422_message_aggregation :
    (∀ errs : List FieldValidationErr,
      handleAddUserErrorMessage 422 (ErrDetail.arr errs) =
        String.intercalate ", " (errs.map formatValidationErr)) ∧
    handleAddUserErrorMessage 422
        (ErrDetail.arr [{ loc := ["body", "roll_no"], msg := "field required" }]) =
      "body.roll_no: field required" ∧
    containsSub (handleAddUserErrorMessage 422
        (ErrDetail.arr [{ loc := ["body", "roll_no"], msg := "field required" }])).data
      ("body.roll_no: field required").data = true ∧
    handleAddUserErrorMessage 422
        (ErrDetail.arr [{ loc := ["body", "roll_no"], msg := "field required" },
          { loc := ["body", "password"], msg := "too short" }]) =
      "body.roll_no: field required, body.password: too short" := by
  refine ⟨fun errs => by simp [handleAddUserErrorMessage], by decide, by decide, by decide⟩

/-- C6 witness: the aggregated message of the specified single-error
detail. -/
theorem addUser_422_witness :
    handleAddUserErrorMessage 422
        (ErrDetail.arr [{ loc := ["body", "roll_no"], msg := "field required" }]) =
      "body.roll_no: field required" :=
  addUser_422_message_aggregation.2.1

/-- C8: whenever the stored identity is not a parsed admin blob with
is_admin true, both admin-only route guards redirect to /dashboard with a
history replacement. -/
theorem admin_guard_student_redirects_dashboard (b : AdminBlobState)
    (h : b ≠ AdminBlobState.parsed true) :
    adminDashboardGuard b = GuardAction.redirect "/dashboard" true ∧
    adminPerformanceGuard b = GuardAction.redirect "/dashboard" true := by
  cases b with
  | absent => exact ⟨rfl, rfl⟩
  | unparseable => exact ⟨rfl, rfl⟩
  | parsed a =>
    cases a with
    | false => exact ⟨rfl, rfl⟩
    | true => exact absurd rfl h

/-- C7: the upload abort timer is 300000 milliseconds; an aborted fetch
surfaces the timed-out message, which differs from and is not contained in
either backend-unreachable message, whatever the configured base URL, so
the timeout and connectivity error kinds are never conflated. -/
theorem upload_timeout_distinct_from_unreachable (apiBaseUrl : String) :
    uploadTimeoutMs = 300000 ∧
    uploadFileCatchMessage apiBaseUrl UploadFetchError.abortError = uploadTimedOutMessage ∧
    uploadFileCatchMessage apiBaseUrl UploadFetchError.abortError ≠
      uploadFileCatchMessage apiBaseUrl UploadFetchError.typeError ∧
    uploadTimedOutMessage ≠ genericUnreachableMessage ∧
    containsSub uploadTimedOutMessage.data
      (uploadFileCatchMessage apiBaseUrl UploadFetchError.typeError).data = false ∧
    containsSub uploadTimedOutMessage.data genericUnreachableMessage.data = false := by
  have hsplit : backendUnreachableMessage apiBaseUrl =
      ("Unable to reach the assistant backend at " ++ apiBaseUrl) ++
        backendUnreachableGuidance := rfl
  have hlen : (backendUnreachableMessage apiBaseUrl).length =
      "Unable to reach the assistant backend at ".length + apiBaseUrl.length +
        backendUnreachableGuidance.length := by
    rw [hsplit, String.length_append, String.length_append]
  have hshort : uploadTimedOutMessage.length <
      "Unable to reach the assistant backend at ".length +
        backendUnreachableGuidance.length := by decide
  have hbig : uploadTimedOutMessage.length < (backendUnreachableMessage apiBaseUrl).length := by
    omega
  refine ⟨rfl, rfl, ?_, by decide, ?_, by decide⟩
  · intro he
    have he2 : uploadTimedOutMessage = backendUnreachableMessage apiBaseUrl := he
    have := congrArg String.length he2
    omega
  · have htype : uploadFileCatchMessage apiBaseUrl UploadFetchError.typeError =
        backendUnreachableMessage apiBaseUrl := rfl
    rw [htype]
    cases hc : containsSub uploadTimedOutMessage.data
        (backendUnreachableMessage apiBaseUrl).data with
    | false => rfl
    | true =>
      exfalso
      have hle := containsSub_length _ _ hc
      have hd1 : uploadTimedOutMessage.data.length = uploadTimedOutMessage.length := rfl
      have hd2 : (backendUnreachableMessage apiBaseUrl).data.length =
          (backendUnreachableMessage apiBaseUrl).length := rfl
      omega

/-- C7 witness: the two error kinds differ at the default base URL. -/
theorem upload_timeout_witness :
    uploadFileCatchMessage "/api" UploadFetchError.abortError ≠
      uploadFileCatchMessage "/api" UploadFetchError.typeError :=
  (upload_timeout_distinct_from_unreachable "/api").2.2.1

/-- C8 witness: a parsed blob with is_admin false redirects both guards. -/
theorem admin_guard_student_witness :
    adminDashboardGuard (AdminBlobState.parsed false) = GuardAction.redirect "/dashboard" true ∧
    adminPerformanceGuard (AdminBlobState.parsed false) = GuardAction.redirect "/dashboard" true :=
  admin_guard_student_redirects_dashboard (AdminBlobState.parsed false) (by decide)

/-- C9: clearCompletedFiles is an order-preserving removal of exactly the
complete-status items: the result is a sublist of the queue, an item
survives exactly when its status is not complete, occurrence counts of
non-complete items are untouched, removeFileItem deletes exactly the items
carrying the given id, and an error item's id survives every
upsertFileItems call. -/
theorem clearCompletedFiles_preserves_errors (q : List UploadQueueItem) :
    (clearCompletedFiles q).Sublist q ∧
    (∀ i : UploadQueueItem, i ∈ clearCompletedFiles q ↔
      i ∈ q ∧ i.status ≠ FileStatus.complete) ∧
    (∀ i : UploadQueueItem,
      (clearCompletedFiles q).count i =
        if i.status = FileStatus.complete then 0 else q.count i) ∧
    (∀ (id : String) (i : UploadQueueItem),
      i ∈ removeFileItem q id ↔ i ∈ q ∧ i.id ≠ id) ∧
    (∀ i ∈ q, i.status = FileStatus.error →
      ∀ items : List UploadQueueItem,
        i.id ∈ (upsertFileItems q items).map (fun x => x.id)) := by
  refine ⟨List.filter_sublist q, ?_, ?_, ?_, ?_⟩
  · intro i
    unfold clearCompletedFiles
    rw [List.mem_filter]
    constructor
    · rintro ⟨h1, h2⟩
      exact ⟨h1, by simpa using h2⟩
    · rintro ⟨h1, h2⟩
      exact ⟨h1, by simpa using h2⟩
  · intro i
    unfold clearCompletedFiles
    by_cases hs : i.status = FileStatus.complete
    · rw [if_pos hs]
      apply List.count_eq_zero_of_not_mem
      intro hmem
      have h2 := (List.mem_filter.mp hmem).2
      simp [hs] at h2
    · rw [if_neg hs]
      exact List.count_filter (by simpa using hs)
  · intro id i
    unfold removeFileItem
    rw [List.mem_filter]
    constructor
    · rintro ⟨h1, h2⟩
      exact ⟨h1, by simpa using h2⟩
    · rintro ⟨h1, h2⟩
      exact ⟨h1, by simpa using h2⟩
  · intro i hi _ items
    have hcons0 : ConsistentMap (mapOfPairs (q.map fun j => (j.id, j))) := by
      apply consistent_mapOfPairs
      intro p hp
      rcases List.mem_map.mp hp with ⟨j, _, he⟩
      rw [← he]
    have hconsF := consistent_foldl items _ hcons0
    unfold upsertFileItems
    rw [values_map_id _ hconsF, foldl_upsert_keys]
    apply List.mem_append.mpr
    left
    apply mem_keys_mapOfPairs
    exact List.mem_map.mpr ⟨(i.id, i), List.mem_map.mpr ⟨i, hi, rfl⟩, rfl⟩

/-- C9 witness: the error item survives a clear of the completed items and
its id survives an upsert. -/
theorem clearCompleted_witness :
    errItem ∈ clearCompletedFiles [errItem, doneItem] ∧
    errItem.id ∈ (upsertFileItems [errItem, doneItem] [freshItem]).map (fun x => x.id) := by
  have h := clearCompletedFiles_preserves_errors [errItem, doneItem]
  exact ⟨(h.2.1 errItem).mpr ⟨by decide, by decide⟩,
    h.2.2.2.2 errItem (by decide) (by decide) [freshItem]⟩

/-- C10: over a queue with pairwise-distinct ids, upsertFileItems keeps the
ids pairwise distinct, keeps every prior item's position and appends the
genuinely new ids in order of first arrival, and resolves each id to the
last incoming item with that id, falling back to the prior item when the
id is not among the incoming ones. -/
theorem upsertFileItems_last_writer_wins (q items : List UploadQueueItem)
    (hq : (q.map fun i => i.id).Nodup) :
    ((upsertFileItems q items).map fun i => i.id).Nodup ∧
    (upsertFileItems q items).map (fun i => i.id) =
      q.map (fun i => i.id) ++ newIds items (q.map fun i => i.id) ∧
    ∀ k : String,
      (upsertFileItems q items).find? (fun i => i.id == k) =
        match items.reverse.find? (fun it => it.id == k) with
        | some v => some v
        | none => q.find? (fun i => i.id == k) := by
  have hkeys_pairs : (q.map fun i => (i.id, i)).map Prod.fst = q.map fun i => i.id := by
    simp
  have hnodup_pairs : ((q.map fun i => (i.id, i)).map Prod.fst).Nodup := by
    rw [hkeys_pairs]; exact hq
  have hm0 : mapOfPairs (q.map fun i => (i.id, i)) = q.map fun i => (i.id, i) :=
    mapOfPairs_of_nodup hnodup_pairs
  have hconsP : ConsistentMap (q.map fun i => (i.id, i)) := by
    intro p hp
    rcases List.mem_map.mp hp with ⟨j, _, he⟩
    rw [← he]
  have hcons0 : ConsistentMap (mapOfPairs (q.map fun i => (i.id, i))) := by
    rw [hm0]; exact hconsP
  have hconsF := consistent_foldl items _ hcons0
  have hkeys0 : mapKeys (mapOfPairs (q.map fun i => (i.id, i))) = q.map fun i => i.id := by
    rw [hm0]; exact hkeys_pairs
  have hids : (upsertFileItems q items).map (fun i => i.id) =
      q.map (fun i => i.id) ++ newIds items (q.map fun i => i.id) := by
    unfold upsertFileItems
    rw [values_map_id _ hconsF, foldl_upsert_keys, hkeys0]
  refine ⟨?_, hids, ?_⟩
  · rw [hids]
    exact List.Nodup.append hq (newIds_nodup items _)
      (fun a ha hb => newIds_not_mem items _ a hb ha)
  · intro k
    unfold upsertFileItems
    rw [values_find_eq _ hconsF k, foldl_upsert_findPair]
    cases hfind : items.reverse.find? (fun it => it.id == k) with
    | some v => rfl
    | none =>
      rw [hm0]
      have hv := values_find_eq _ hconsP k
      rw [map_snd_pairs q] at hv
      exact hv.symm

/-- C10 witness: a queue with distinct ids evaluated with one replacement
and one fresh item keeps its ids distinct. -/
theorem upsertFileItems_witness :
    (([errItem, doneItem] : List UploadQueueItem).map fun i => i.id).Nodup ∧
    ((upsertFileItems [errItem, doneItem] [errReplacement, freshItem]).map fun i => i.id).Nodup :=
  ⟨by decide,
    (upsertFileItems_last_writer_wins [errItem, doneItem] [errReplacement, freshItem]
      (by decide)).1⟩

end SCA
